import Mathlib

/-!
Shallow embedding of the automated code-fix pipeline of `ruyot/codemap`
(`src/backend/app/services/code_fix_service.py` and the `code-fix` route of
`src/backend/app/routers/agents.py`).

Text is modelled as `List Char`.  Python regular-expression substitution
(`re.sub`) is modelled for the eight concrete patterns appearing in the
service, each as an explicit matcher following Python's leftmost,
greedy-with-backtracking semantics (for these patterns the character classes
involved are pairwise disjoint, so greedy matching without backtracking is
exact).  Python replacement templates treat `\1`-style escapes as group
references and everything else — in particular `$1` — as literal characters;
`pyExpand` models this.  Character classes are the ASCII portions of `\w`
and `\s`.
-/

namespace Codemap

/-- Python `in` on strings: `pat` occurs as a contiguous substring of `s`. -/
def containsSub (pat : List Char) : List Char → Bool
  | [] => pat.isEmpty
  | c :: rest => pat.isPrefixOf (c :: rest) || containsSub pat rest

/-- Python `\w` (ASCII portion): `[a-zA-Z0-9_]`. -/
def isWordChar (c : Char) : Bool := c.isAlphanum || c = '_'

/-- Python `\s` (ASCII portion): space, tab, newline, CR, VT, FF. -/
def isSpaceChar (c : Char) : Bool :=
  c = ' ' || c = '\t' || c = '\n' || c = '\r' || c = '\x0b' || c = '\x0c'

/-- Lowercase a text, modelling Python `str.lower()` on ASCII text. -/
def lowerStr (s : List Char) : List Char := s.map Char.toLower

/-- The enum `FixAction` of `app/models.py`. -/
inductive FixAction where
  | replace
  | comment
  | suggest
deriving DecidableEq, Repr

/--
The regular-expression patterns that `CodeFixService` ever stores in a
`Fix.pattern` field, one constructor per literal pattern string in
`code_fix_service.py`, plus `malformed` standing for a pattern string that
fails to compile (raises `re.error`).
-/
inductive Pat where
  /-- pattern `(\w+)\s*&&\s*\1\(` (style, "optional chaining"). -/
  | optChain
  /-- pattern `^(\s*)(interface\s+\w+)` (style, "export"); anchored. -/
  | exportIface
  /-- pattern `(\w+)$` (style, "semicolon"). -/
  | semicolonEnd
  /-- pattern `(\w+)\.(\w+)` (bug, "undefined"). -/
  | undefinedAccess
  /-- pattern `(\w+)\s*==\s*null` (bug, "null"). -/
  | nullEq
  /-- pattern `module\s*=` (bug, "assignment"+"module"). -/
  | moduleAssign
  /-- pattern `eval\(` (security, "injection"). -/
  | evalCall
  /-- pattern `innerHTML\s*=` (security, "xss"). -/
  | innerHTMLAssign
  /-- a pattern string that does not compile (`re.error`). -/
  | malformed (src : List Char)
deriving DecidableEq, Repr

/-- The pydantic model `Fix` of `app/models.py` (all fields optional). -/
structure Fix where
  action : FixAction
  pattern : Option Pat := none
  replacement : Option (List Char) := none
  explanation : Option (List Char) := none
  line : Option Nat := none
  comment : Option (List Char) := none
  suggestion : Option (List Char) := none
deriving DecidableEq, Repr

/-- The pydantic model `GeneratedFix` of `app/models.py`. -/
structure GeneratedFix where
  error_id : Nat
  type : List Char
  description : List Char
  fix : Fix
  confidence : ℚ
  automated : Bool
deriving DecidableEq, Repr

/-- The pydantic model `CodeError` of `app/models.py`; `line` is a positive
integer per the data model. -/
structure CodeError where
  type : List Char
  line : Nat
  message : List Char
deriving DecidableEq, Repr

/-- Match at the start of `t` the pattern `(\w+)\s*&&\s*\1\(`; returns the
match length and the capture groups. -/
def matchOptChain (t : List Char) : Option (Nat × List (List Char)) :=
  let w1 := t.takeWhile isWordChar
  if w1 = [] then none else
  let r1 := t.drop w1.length
  let s1 := r1.takeWhile isSpaceChar
  let r2 := r1.drop s1.length
  if ('&' :: '&' :: []).isPrefixOf r2 then
    let r3 := r2.drop 2
    let s2 := r3.takeWhile isSpaceChar
    let r4 := r3.drop s2.length
    if w1.isPrefixOf r4 then
      match r4.drop w1.length with
      | '(' :: _ => some (w1.length + s1.length + 2 + s2.length + w1.length + 1, [w1])
      | _ => none
    else none
  else none

/-- Match at the start of `t` the anchored pattern `^(\s*)(interface\s+\w+)`
(no MULTILINE flag, so `^` matches only at the start of the whole text). -/
def matchExportIface (t : List Char) : Option (Nat × List (List Char)) :=
  let s1 := t.takeWhile isSpaceChar
  let r1 := t.drop s1.length
  let kw := "interface".toList
  if kw.isPrefixOf r1 then
    let r2 := r1.drop 9
    let s2 := r2.takeWhile isSpaceChar
    if s2 = [] then none else
    let r3 := r2.drop s2.length
    let w := r3.takeWhile isWordChar
    if w = [] then none
    else some (s1.length + 9 + s2.length + w.length, [s1, kw ++ s2 ++ w])
  else none

/-- Match at the start of `t` the pattern `(\w+)$`, where `$` holds at the
end of the text or just before a single final newline. -/
def matchSemicolonEnd (t : List Char) : Option (Nat × List (List Char)) :=
  let w1 := t.takeWhile isWordChar
  if w1 = [] then none else
  match t.drop w1.length with
  | [] => some (w1.length, [w1])
  | '\n' :: [] => some (w1.length, [w1])
  | _ => none

/-- Match at the start of `t` the pattern `(\w+)\.(\w+)`. -/
def matchUndefinedAccess (t : List Char) : Option (Nat × List (List Char)) :=
  let w1 := t.takeWhile isWordChar
  if w1 = [] then none else
  match t.drop w1.length with
  | '.' :: r2 =>
    let w2 := r2.takeWhile isWordChar
    if w2 = [] then none else some (w1.length + 1 + w2.length, [w1, w2])
  | _ => none

/-- Match at the start of `t` the pattern `(\w+)\s*==\s*null`. -/
def matchNullEq (t : List Char) : Option (Nat × List (List Char)) :=
  let w1 := t.takeWhile isWordChar
  if w1 = [] then none else
  let r1 := t.drop w1.length
  let s1 := r1.takeWhile isSpaceChar
  let r2 := r1.drop s1.length
  if ('=' :: '=' :: []).isPrefixOf r2 then
    let r3 := r2.drop 2
    let s2 := r3.takeWhile isSpaceChar
    let r4 := r3.drop s2.length
    if "null".toList.isPrefixOf r4 then
      some (w1.length + s1.length + 2 + s2.length + 4, [w1])
    else none
  else none

/-- Match at the start of `t` the pattern `module\s*=`. -/
def matchModuleAssign (t : List Char) : Option (Nat × List (List Char)) :=
  let kw := "module".toList
  if kw.isPrefixOf t then
    let r1 := t.drop 6
    let s1 := r1.takeWhile isSpaceChar
    match r1.drop s1.length with
    | '=' :: _ => some (6 + s1.length + 1, [])
    | _ => none
  else none

/-- Match at the start of `t` the pattern `eval\(`. -/
def matchEvalCall (t : List Char) : Option (Nat × List (List Char)) :=
  if "eval(".toList.isPrefixOf t then some (5, []) else none

/-- Match at the start of `t` the pattern `innerHTML\s*=`. -/
def matchInnerHTMLAssign (t : List Char) : Option (Nat × List (List Char)) :=
  let kw := "innerHTML".toList
  if kw.isPrefixOf t then
    let r1 := t.drop 9
    let s1 := r1.takeWhile isSpaceChar
    match r1.drop s1.length with
    | '=' :: _ => some (9 + s1.length + 1, [])
    | _ => none
  else none

/--
Python `re.sub` replacement-template expansion: a backslash followed by a
digit is a group reference (group `n` is `groups[n-1]`); any other character
— including `$` — is copied literally.
-/
def pyExpand : List Char → List (List Char) → List Char
  | [], _ => []
  | c :: rest, gs =>
    if c = '\\' then
      match rest with
      | [] => [c]
      | d :: rest2 =>
        if d.isDigit then gs.getD (d.toNat - 49) [] ++ pyExpand rest2 gs
        else c :: d :: pyExpand rest2 gs
    else c :: pyExpand rest gs

/--
The scan loop of Python `re.sub` for an unanchored pattern: at each
position try the matcher; on a (non-empty) match emit the expanded
replacement and continue after the match, otherwise copy one character and
advance.  `fuel` only serves termination; `fuel = text.length + 1` is always
enough since every match consumes at least one character.
-/
def subFuel (M : List Char → Option (Nat × List (List Char)))
    (repl : List Char) : Nat → List Char → List Char
  | _, [] => []
  | 0, text => text
  | fuel + 1, c :: rest =>
    match M (c :: rest) with
    | some (n, gs) =>
      if 0 < n then pyExpand repl gs ++ subFuel M repl fuel ((c :: rest).drop n)
      else c :: subFuel M repl fuel rest
    | none => c :: subFuel M repl fuel rest

/-- Python `re.sub pattern repl text` for an unanchored pattern. -/
def pySub (M : List Char → Option (Nat × List (List Char)))
    (repl text : List Char) : List Char :=
  subFuel M repl (text.length + 1) text

/-- Python `re.sub` for the `^`-anchored pattern (without MULTILINE the
pattern can only match at position 0, and at most once since the match is
non-empty). -/
def pySubAnchored (M : List Char → Option (Nat × List (List Char)))
    (repl text : List Char) : List Char :=
  match M text with
  | some (n, gs) => pyExpand repl gs ++ text.drop n
  | none => text

/-- `re.sub` dispatched over the service's patterns; `none` models the
`re.error` exception raised by a malformed pattern. -/
def pySubPat (p : Pat) (repl text : List Char) : Option (List Char) :=
  match p with
  | .optChain => some (pySub matchOptChain repl text)
  | .exportIface => some (pySubAnchored matchExportIface repl text)
  | .semicolonEnd => some (pySub matchSemicolonEnd repl text)
  | .undefinedAccess => some (pySub matchUndefinedAccess repl text)
  | .nullEq => some (pySub matchNullEq repl text)
  | .moduleAssign => some (pySub matchModuleAssign repl text)
  | .evalCall => some (pySub matchEvalCall repl text)
  | .innerHTMLAssign => some (pySub matchInnerHTMLAssign repl text)
  | .malformed _ => none

/-- Python `text.split('\n')`. -/
def splitNl : List Char → List (List Char)
  | [] => [[]]
  | c :: rest =>
    if c = '\n' then [] :: splitNl rest
    else
      match splitNl rest with
      | [] => [[c]]
      | l :: ls => (c :: l) :: ls

/-- Python `'\n'.join(lines)`. -/
def joinNl : List (List Char) → List Char
  | [] => []
  | [l] => l
  | l :: ls => l ++ '\n' :: joinNl ls

/-- Python `list.insert(i, x)` (insert before index `i`, clamped to the
end when `i` exceeds the length). -/
def insIdx : Nat → List Char → List (List Char) → List (List Char)
  | 0, a, l => a :: l
  | _ + 1, a, [] => [a]
  | n + 1, a, x :: xs => x :: insIdx n a xs

/-- `_generate_style_fix` of `code_fix_service.py`. -/
def generate_style_fix (error : CodeError) : Fix :=
  if containsSub "optional chaining".toList (lowerStr error.message) then
    { action := .replace, pattern := some .optChain,
      replacement := some "$1?.()".toList,
      explanation := some "Replace logical AND with optional chaining for safer property access".toList }
  else if containsSub "export".toList (lowerStr error.message) then
    { action := .replace, pattern := some .exportIface,
      replacement := some "$1export $2".toList,
      explanation := some "Export interface for better reusability".toList }
  else if containsSub "semicolon".toList (lowerStr error.message) then
    { action := .replace, pattern := some .semicolonEnd,
      replacement := some "$1;".toList,
      explanation := some "Add missing semicolon".toList }
  else
    { action := .comment, line := some error.line,
      comment := some ("// STYLE: ".toList ++ error.message),
      explanation := some "Added style comment for manual review".toList }

/-- `_generate_bug_fix` of `code_fix_service.py`. -/
def generate_bug_fix (error : CodeError) : Fix :=
  if containsSub "undefined".toList (lowerStr error.message) then
    { action := .replace, pattern := some .undefinedAccess,
      replacement := some "$1?.$2".toList,
      explanation := some "Add null checking to prevent undefined access".toList }
  else if containsSub "null".toList (lowerStr error.message) then
    { action := .replace, pattern := some .nullEq,
      replacement := some "$1 === null".toList,
      explanation := some "Use strict equality for null checks".toList }
  else if containsSub "assignment".toList (lowerStr error.message)
      && containsSub "module".toList (lowerStr error.message) then
    { action := .replace, pattern := some .moduleAssign,
      replacement := some "moduleData =".toList,
      explanation := some "Rename variable to avoid module assignment conflict".toList }
  else
    { action := .comment, line := some error.line,
      comment := some ("// TODO: Fix bug - ".toList ++ error.message),
      explanation := some "Added TODO comment for manual review".toList }

/-- `_generate_security_fix` of `code_fix_service.py`. -/
def generate_security_fix (error : CodeError) : Fix :=
  if containsSub "injection".toList (lowerStr error.message) then
    { action := .replace, pattern := some .evalCall,
      replacement := some "// SECURITY: eval() removed - ".toList,
      explanation := some "Removed dangerous eval() function".toList }
  else if containsSub "xss".toList (lowerStr error.message) then
    { action := .replace, pattern := some .innerHTMLAssign,
      replacement := some "textContent =".toList,
      explanation := some "Use textContent instead of innerHTML to prevent XSS".toList }
  else
    { action := .comment, line := some error.line,
      comment := some ("// SECURITY: ".toList ++ error.message),
      explanation := some "Added security warning comment".toList }

/-- `_generate_performance_fix` of `code_fix_service.py`. -/
def generate_performance_fix (error : CodeError) : Fix :=
  if containsSub "loop".toList (lowerStr error.message) then
    { action := .suggest,
      suggestion := some "Consider using Array.map() or Array.filter() for better performance".toList,
      explanation := some "Functional array methods are often more performant".toList }
  else if containsSub "memory".toList (lowerStr error.message) then
    { action := .suggest,
      suggestion := some "Consider implementing object pooling or lazy loading".toList,
      explanation := some "Optimize memory usage".toList }
  else
    { action := .comment, line := some error.line,
      comment := some ("// PERFORMANCE: ".toList ++ error.message),
      explanation := some "Added performance comment for optimization".toList }

/-- `_generate_generic_fix` of `code_fix_service.py`. -/
def generate_generic_fix (error : CodeError) : Fix :=
  { action := .comment, line := some error.line,
    comment := some ("// REVIEW: ".toList ++ error.message),
    explanation := some "Added review comment for manual inspection".toList }

/-- The per-error strategy dispatch of `generate_fixes` (on `error.type`). -/
def dispatch_fix (error : CodeError) : Fix :=
  if error.type = "style".toList then generate_style_fix error
  else if error.type = "bug".toList then generate_bug_fix error
  else if error.type = "security".toList then generate_security_fix error
  else if error.type = "performance".toList then generate_performance_fix error
  else generate_generic_fix error

/-- `generate_fixes` of `code_fix_service.py`: every error yields a
`GeneratedFix` with `error_id = error.line`, `confidence = 0.85` and
`automated = True` (the strategy functions always return a fix, and a
pydantic `Fix` object is always truthy). -/
def generate_fixes (code : List Char) (errors : List CodeError)
    (filePath : List Char) : List GeneratedFix :=
  errors.map fun error =>
    { error_id := error.line
      type := error.type
      description := error.message
      fix := dispatch_fix error
      confidence := (85 : ℚ) / 100
      automated := true }

/-- The sort key `f.fix.line or 0` used by `apply_fixes`. -/
def sortKey (g : GeneratedFix) : Nat := g.fix.line.getD 0

/-- `sorted(fixes, key=lambda f: f.fix.line or 0, reverse=True)`: Python's
sort is stable and `reverse=True` keeps elements with equal keys in their
original order, which is exactly stable insertion sort by the descending
relation. -/
def sortFixes (fs : List GeneratedFix) : List GeneratedFix :=
  List.insertionSort (fun a b => sortKey b ≤ sortKey a) fs

/-- One iteration of the application loop of `apply_fixes`: `fix.fix.pattern
and fix.fix.replacement` / `fix.fix.line and fix.fix.comment` are Python
truthiness tests (`None`, `0` and the empty string are falsy), a `re.error`
from a malformed pattern is caught and the fix skipped, and a comment is
inserted only when its 1-indexed line is within the current line count. -/
def applyStep (text : List Char) (g : GeneratedFix) : List Char :=
  match g.fix.action with
  | .replace =>
    match g.fix.pattern, g.fix.replacement with
    | some p, some r =>
      if r = [] then text
      else
        match pySubPat p r text with
        | some t => t
        | none => text
    | _, _ => text
  | .comment =>
    match g.fix.line, g.fix.comment with
    | some L, some c =>
      if L = 0 ∨ c = [] then text
      else
        let lines := splitNl text
        if L ≤ lines.length then joinNl (insIdx (L - 1) c lines) else text
    | _, _ => text
  | .suggest => text

/-- `apply_fixes` of `code_fix_service.py`. -/
def apply_fixes (code : List Char) (fs : List GeneratedFix) : List Char :=
  (sortFixes fs).foldl applyStep code

/-- The result dictionary of `run_tests`. -/
structure TestReport where
  total : Nat
  passed : Nat
  failed : Nat
  tests : List (List Char × Bool)
  success : Bool
deriving DecidableEq, Repr

/-- `run_tests` of `code_fix_service.py` (the mock validation gate). -/
def run_tests (filePath code : List Char) : TestReport :=
  let hasTodos := containsSub "TODO:".toList code || containsSub "FIXME:".toList code
  let hasSecurityIssues := containsSub "SECURITY:".toList code || containsSub "eval(".toList code
  let hasStyleIssues := containsSub "STYLE:".toList code
  let tests : List (List Char × Bool) :=
    [("Syntax validation".toList, true),
     ("Type checking".toList, true),
     ("Linting rules".toList, !(hasTodos || hasStyleIssues)),
     ("Security scan".toList, !hasSecurityIssues),
     ("Performance check".toList, true)]
  let passedCount := (tests.filter (fun t => t.2)).length
  { total := tests.length
    passed := passedCount
    failed := tests.length - passedCount
    tests := tests
    success := passedCount = tests.length }

/-- `create_pull_request` of `code_fix_service.py`; `rand` models the draw
of `random.randint(1, 1000)`. -/
def create_pull_request (filePath fixedCode : List Char)
    (fs : List GeneratedFix) (rand : Nat) : List Char :=
  "https://github.com/user/repo/pull/".toList ++ (Nat.repr rand).toList

/-- The `summary` dictionary built by the `code-fix` route. -/
structure FixSummary where
  errors_fixed : Nat
  tests_run : Nat
  tests_passed : Nat
  auto_deployed : Bool
deriving DecidableEq, Repr

/-- The model `CodeFixResponse` of `app/models.py`. -/
structure CodeFixResponse where
  fixes : List GeneratedFix
  fixed_code : List Char
  test_results : TestReport
  pr_url : Option (List Char)
  summary : FixSummary
deriving DecidableEq, Repr

/-- An HTTP error raised by the route (status code and detail). -/
structure HTTPError where
  status : Nat
  detail : List Char
deriving DecidableEq, Repr

/-- The `code-fix` route of `app/routers/agents.py`: reject empty code,
generate fixes, apply them, run the mock tests, and create a pull request
iff the tests succeeded.  `rand` models the random draw inside
`create_pull_request`. -/
def code_fix_agent (code : List Char) (errors : List CodeError)
    (filePath : List Char) (rand : Nat) : Except HTTPError CodeFixResponse :=
  if code = [] then .error { status := 400, detail := "Code is required".toList }
  else
    let fixes := generate_fixes code errors filePath
    let fixed_code := apply_fixes code fixes
    let test_results := run_tests filePath fixed_code
    let pr_url : Option (List Char) :=
      if test_results.success then
        some (create_pull_request filePath fixed_code fixes rand)
      else none
    .ok { fixes := fixes
          fixed_code := fixed_code
          test_results := test_results
          pr_url := pr_url
          summary :=
            { errors_fixed := fixes.length
              tests_run := test_results.total
              tests_passed := test_results.passed
              auto_deployed := pr_url.isSome } }

/-- A `GeneratedFix` is a Replace fix with a malformed pattern: exactly the
fixes whose application raises (and catches) `re.error`. -/
def isMalformedReplace (g : GeneratedFix) : Bool :=
  match g.fix.action, g.fix.pattern with
  | .replace, some (.malformed _) => true
  | _, _ => false

/-- Modelled from the spec: the sort key claimed by the spec for
`apply_fixes` — the `EditDescriptor.line` for an InsertComment edit, and the
originating error's line (the `GeneratedFix`'s `error_id`) for a Replace or
Suggest edit. -/
def claimedSortKey (g : GeneratedFix) : Nat :=
  match g.fix.action with
  | .comment => g.fix.line.getD 0
  | _ => g.error_id

/-- Modelled from the spec: simultaneous comment insertion — walk the
original lines carrying the 1-indexed position `j`, and place each comment
immediately before its originally-specified line of the original text. -/
def specCommentMerge (pairs : List (Nat × List Char)) :
    Nat → List (List Char) → List (List Char)
  | _, [] => []
  | j, l :: ls =>
    match pairs.find? (fun p => p.1 == j) with
    | some p => p.2 :: l :: specCommentMerge pairs (j + 1) ls
    | none => l :: specCommentMerge pairs (j + 1) ls

/-- Interleave `gaps` (one more of them than `ms`) with `ms`:
`g₀ ++ m₁ ++ g₁ ++ … ++ mₖ ++ gₖ`. -/
def glue : List (List Char) → List (List Char) → List Char
  | [g], [] => g
  | g :: gs, m :: ms => g ++ m ++ glue gs ms
  | _, _ => []

/-- A Replace fix originating at error line 5 (its edit descriptor has no
`line` field), as `generate_fixes` produces for a "bug"/"undefined" error. -/
def c3fixReplace : GeneratedFix :=
  { error_id := 5
    type := "bug".toList
    description := "possibly undefined value".toList
    fix := generate_bug_fix { type := "bug".toList, line := 5,
                              message := "possibly undefined value".toList }
    confidence := (85 : ℚ) / 100
    automated := true }

/-- An InsertComment fix targeting line 3. -/
def c3fixComment : GeneratedFix :=
  { error_id := 3
    type := "style".toList
    description := "messy".toList
    fix := generate_style_fix { type := "style".toList, line := 3,
                                message := "messy".toList }
    confidence := (85 : ℚ) / 100
    automated := true }

/-- An InsertComment fix whose comment is the empty string (falsy in
Python), targeting line 1. -/
def c5emptyCommentFix : GeneratedFix :=
  { error_id := 1
    type := "style".toList
    description := "empty".toList
    fix := { action := .comment, line := some 1, comment := some [] }
    confidence := (85 : ℚ) / 100
    automated := true }

end Codemap

namespace Codemap

/-! ## Helper lemmas -/

theorem applyStep_of_malformed (text : List Char) (g : GeneratedFix)
    (h : isMalformedReplace g = true) : applyStep text g = text := by
  unfold isMalformedReplace at h
  unfold applyStep
  rcases hact : g.fix.action with _ | _ | _ <;> rw [hact] at h <;> try simp at h
  rcases hpat : g.fix.pattern with _ | p <;> rw [hpat] at h <;> try simp at h
  rcases p with _ | _ | _ | _ | _ | _ | _ | _ | s <;> simp at h
  rcases hrep : g.fix.replacement with _ | r
  · simp
  · simp [pySubPat]

theorem foldl_applyStep_filter_malformed (l : List GeneratedFix) :
    ∀ code : List Char,
      l.foldl applyStep code
        = (l.filter fun g => !isMalformedReplace g).foldl applyStep code := by
  induction l with
  | nil => intro code; rfl
  | cons g l ih =>
    intro code
    by_cases h : isMalformedReplace g = true
    · rw [List.foldl_cons, applyStep_of_malformed code g h,
        List.filter_cons_of_neg (by simp [h]), ih]
    · rw [List.foldl_cons, List.filter_cons_of_pos (by simp [h]),
        List.foldl_cons, ih]

theorem pyExpand_no_backslash (t : List Char) (gs : List (List Char))
    (h : '\\' ∉ t) : pyExpand t gs = t := by
  induction t with
  | nil => rfl
  | cons c rest ih =>
    have hc : c ≠ '\\' := fun hc => h (hc ▸ List.mem_cons_self c rest)
    rw [pyExpand.eq_def]
    simp only [if_neg hc]
    rw [ih (fun hm => h (List.mem_cons_of_mem c hm))]

theorem glue_cons_char (c : Char) (g : List Char) (gaps ms : List (List Char))
    (hlen : gaps.length = ms.length) :
    glue ((c :: g) :: gaps) ms = c :: glue (g :: gaps) ms := by
  cases ms with
  | nil =>
    cases gaps with
    | nil => rfl
    | cons x xs => simp at hlen
  | cons m ms' =>
    cases gaps with
    | nil => simp at hlen
    | cons x xs => simp [glue]

/-- Generic shape of the `re.sub` scan when the replacement template
expands to itself on every group assignment: the input text splits into
gaps and matched fragments, and the output is the same gaps with every
matched fragment rewritten to the literal replacement characters. -/
theorem subFuel_literal (M : List Char → Option (Nat × List (List Char)))
    (repl : List Char) (hR : ∀ gs, pyExpand repl gs = repl) :
    ∀ (fuel : Nat) (text : List Char), text.length < fuel →
      ∃ gaps ms : List (List Char), gaps.length = ms.length + 1
        ∧ glue gaps ms = text
        ∧ subFuel M repl fuel text = glue gaps (List.replicate ms.length repl) := by
  intro fuel
  induction fuel with
  | zero => intro text h; exact absurd h (Nat.not_lt_zero _)
  | succ fuel ih =>
    intro text h
    cases text with
    | nil => exact ⟨[[]], [], rfl, rfl, rfl⟩
    | cons c rest =>
      have hrest : rest.length < fuel := by
        simp only [List.length_cons] at h
        omega
      cases hM : M (c :: rest) with
      | none =>
        obtain ⟨gaps, ms, hlen, hglue, hout⟩ := ih rest hrest
        cases gaps with
        | nil => simp at hlen
        | cons g gaps' =>
          have hlen' : gaps'.length = ms.length := by
            simp only [List.length_cons] at hlen
            omega
          refine ⟨(c :: g) :: gaps', ms, by simpa using hlen, ?_, ?_⟩
          · rw [glue_cons_char c g gaps' ms hlen', hglue]
          · rw [subFuel]
            simp only [hM]
            rw [hout, glue_cons_char c g gaps' _ (by simpa using hlen')]
      | some nz =>
        obtain ⟨n, gs⟩ := nz
        by_cases hn : 0 < n
        · have hdrop : ((c :: rest).drop n).length < fuel := by
            simp only [List.length_drop, List.length_cons]
            omega
          obtain ⟨gaps, ms, hlen, hglue, hout⟩ := ih ((c :: rest).drop n) hdrop
          refine ⟨[] :: gaps, ((c :: rest).take n) :: ms, by simpa using hlen, ?_, ?_⟩
          · cases gaps with
            | nil => simp at hlen
            | cons g gaps' =>
              show [] ++ (c :: rest).take n ++ glue (g :: gaps') ms = c :: rest
              rw [List.nil_append, hglue, List.take_append_drop]
          · rw [subFuel]
            simp only [hM, if_pos hn]
            rw [hR gs, hout]
            cases gaps with
            | nil => simp at hlen
            | cons g gaps' =>
              show repl ++ glue (g :: gaps') (List.replicate ms.length repl)
                  = glue ([] :: g :: gaps') (List.replicate (ms.length + 1) repl)
              rw [List.replicate_succ]
              rfl
        · obtain ⟨gaps, ms, hlen, hglue, hout⟩ := ih rest hrest
          cases gaps with
          | nil => simp at hlen
          | cons g gaps' =>
            have hlen' : gaps'.length = ms.length := by
              simp only [List.length_cons] at hlen
              omega
            refine ⟨(c :: g) :: gaps', ms, by simpa using hlen, ?_, ?_⟩
            · rw [glue_cons_char c g gaps' ms hlen', hglue]
            · rw [subFuel]
              simp only [hM, if_neg hn]
              rw [hout, glue_cons_char c g gaps' _ (by simpa using hlen')]

/-- `pySub` instance of `subFuel_literal` for a backslash-free replacement
template, as chosen by every `$`-style rule of the service. -/
theorem pySub_literal (M : List Char → Option (Nat × List (List Char)))
    (repl : List Char) (hR : '\\' ∉ repl) (text : List Char) :
    ∃ gaps ms : List (List Char), gaps.length = ms.length + 1
      ∧ glue gaps ms = text
      ∧ pySub M repl text = glue gaps (List.replicate ms.length repl) :=
  subFuel_literal M repl (fun gs => pyExpand_no_backslash repl gs hR)
    (text.length + 1) text (Nat.lt_succ_self _)

theorem splitNl_ne_nil (t : List Char) : splitNl t ≠ [] := by
  cases t with
  | nil => simp [splitNl]
  | cons c rest =>
    simp only [splitNl]
    split_ifs
    · simp
    · cases h : splitNl rest <;> simp

theorem mem_splitNl_no_newline (t : List Char) :
    ∀ l : List Char, l ∈ splitNl t → '\n' ∉ l := by
  induction t with
  | nil =>
    intro l hl
    simp [splitNl] at hl
    simp [hl]
  | cons c rest ih =>
    intro l hl
    simp only [splitNl] at hl
    split_ifs at hl with hc
    · rcases List.mem_cons.mp hl with h | h
      · simp [h]
      · exact ih l h
    · cases hrest : splitNl rest with
      | nil => exact absurd hrest (splitNl_ne_nil rest)
      | cons x xs =>
        rw [hrest] at hl
        rcases List.mem_cons.mp hl with h | h
        · subst h
          intro hm
          rcases List.mem_cons.mp hm with h1 | h1
          · exact hc h1.symm
          · exact ih x (hrest ▸ List.mem_cons_self x xs) h1
        · exact ih l (hrest ▸ List.mem_cons_of_mem x h)

theorem splitNl_append_newline (a b : List Char) :
    splitNl (a ++ '\n' :: b) = splitNl a ++ splitNl b := by
  induction a with
  | nil => simp [splitNl]
  | cons c a ih =>
    by_cases hc : c = '\n'
    · subst hc
      show splitNl ('\n' :: (a ++ '\n' :: b)) = splitNl ('\n' :: a) ++ splitNl b
      simp only [splitNl, eq_self_iff_true, if_true]
      rw [ih]
      rfl
    · show splitNl (c :: (a ++ '\n' :: b)) = splitNl (c :: a) ++ splitNl b
      simp only [splitNl, if_neg hc]
      rw [ih]
      cases ha : splitNl a with
      | nil => exact absurd ha (splitNl_ne_nil a)
      | cons x xs => simp

theorem joinNl_cons_ne_nil (l : List Char) (ls : List (List Char)) (h : ls ≠ []) :
    joinNl (l :: ls) = l ++ '\n' :: joinNl ls := by
  cases ls with
  | nil => exact absurd rfl h
  | cons y ys => rfl

theorem joinNl_splitNl (t : List Char) : joinNl (splitNl t) = t := by
  induction t with
  | nil => rfl
  | cons c rest ih =>
    by_cases hc : c = '\n'
    · subst hc
      simp only [splitNl, eq_self_iff_true, if_true]
      rw [joinNl_cons_ne_nil [] (splitNl rest) (splitNl_ne_nil rest), ih]
      rfl
    · simp only [splitNl, if_neg hc]
      cases ha : splitNl rest with
      | nil => exact absurd ha (splitNl_ne_nil rest)
      | cons x xs =>
        rw [ha] at ih
        cases xs with
        | nil => exact congrArg (fun t => c :: t) ih
        | cons y ys =>
          rw [joinNl_cons_ne_nil (c :: x) (y :: ys) (by simp)]
          rw [joinNl_cons_ne_nil x (y :: ys) (by simp)] at ih
          rw [← ih]
          rfl

theorem splitNl_no_newline (l : List Char) : '\n' ∉ l → splitNl l = [l] := by
  induction l with
  | nil => intro _; rfl
  | cons c rest ih =>
    intro h
    have hc : c ≠ '\n' := fun e => h (e ▸ List.mem_cons_self c rest)
    simp only [splitNl, if_neg hc]
    rw [ih (fun hm => h (List.mem_cons_of_mem c hm))]

theorem joinNl_append (P Q : List (List Char)) (hP : P ≠ []) (hQ : Q ≠ []) :
    joinNl (P ++ Q) = joinNl P ++ '\n' :: joinNl Q := by
  induction P with
  | nil => exact absurd rfl hP
  | cons x P ih =>
    cases P with
    | nil =>
      rw [List.singleton_append, joinNl_cons_ne_nil x Q hQ]
      rfl
    | cons y P' =>
      rw [List.cons_append, joinNl_cons_ne_nil x ((y :: P') ++ Q) (by simp),
        ih (by simp), joinNl_cons_ne_nil x (y :: P') (by simp)]
      simp

theorem flatSplit_ne_nil (ls : List (List Char)) (h : ls ≠ []) :
    (ls.map splitNl).flatten ≠ [] := by
  cases ls with
  | nil => exact absurd rfl h
  | cons x ls =>
    simp only [List.map_cons, List.flatten_cons]
    intro he
    exact splitNl_ne_nil x (List.append_eq_nil.mp he).1

theorem splitNl_joinNl (ls : List (List Char)) (h : ls ≠ []) :
    splitNl (joinNl ls) = (ls.map splitNl).flatten := by
  induction ls with
  | nil => exact absurd rfl h
  | cons x ls ih =>
    cases ls with
    | nil => simp [joinNl]
    | cons y ls' =>
      rw [joinNl_cons_ne_nil x (y :: ls') (by simp), splitNl_append_newline,
        ih (by simp)]
      simp

theorem joinNl_flatSplit (ls : List (List Char)) :
    joinNl ((ls.map splitNl).flatten) = joinNl ls := by
  induction ls with
  | nil => rfl
  | cons x ls ih =>
    cases ls with
    | nil => simp [joinNl_splitNl, joinNl]
    | cons y ls' =>
      show joinNl (splitNl x ++ ((y :: ls').map splitNl).flatten)
        = joinNl (x :: y :: ls')
      rw [joinNl_append (splitNl x) _ (splitNl_ne_nil x)
          (flatSplit_ne_nil _ (by simp)),
        joinNl_splitNl, ih, joinNl_cons_ne_nil x (y :: ls') (by simp)]

theorem flatSplit_id_of_no_newline (A : List (List Char))
    (h : ∀ l ∈ A, '\n' ∉ l) : (A.map splitNl).flatten = A := by
  induction A with
  | nil => rfl
  | cons x A ih =>
    show splitNl x ++ (A.map splitNl).flatten = x :: A
    rw [splitNl_no_newline x (h x (List.mem_cons_self x A)),
      ih (fun l hl => h l (List.mem_cons_of_mem x hl))]
    rfl

theorem joinNl_append_flatSplit (P Q : List (List Char)) (hP : P ≠ []) :
    joinNl (P ++ (Q.map splitNl).flatten) = joinNl (P ++ Q) := by
  cases Q with
  | nil => rfl
  | cons z Q' =>
    rw [joinNl_append P _ hP (flatSplit_ne_nil (z :: Q') (by simp)),
      joinNl_append P (z :: Q') hP (by simp), joinNl_flatSplit]

theorem insIdx_eq_take_drop :
    ∀ (n : Nat) (a : List Char) (l : List (List Char)), n ≤ l.length →
      insIdx n a l = l.take n ++ a :: l.drop n := by
  intro n
  induction n with
  | zero => intro a l _; rfl
  | succ n ih =>
    intro a l h
    cases l with
    | nil => simp at h
    | cons x xs =>
      simp only [insIdx, List.take_succ_cons, List.drop_succ_cons,
        List.cons_append]
      rw [ih a xs (by simpa using h)]

theorem specMerge_nil_pairs : ∀ (j : Nat) (ls : List (List Char)),
    specCommentMerge [] j ls = ls := by
  intro j ls
  induction ls generalizing j with
  | nil => rfl
  | cons l ls ih =>
    simp only [specCommentMerge, List.find?_nil]
    rw [ih]

theorem specMerge_cons_lt (p : Nat × List Char) (pairs : List (Nat × List Char)) :
    ∀ (ls : List (List Char)) (j : Nat), p.1 < j →
      specCommentMerge (p :: pairs) j ls = specCommentMerge pairs j ls := by
  intro ls
  induction ls with
  | nil => intro j _; rfl
  | cons l ls ih =>
    intro j h
    have hstep : List.find? (fun q : Nat × List Char => q.1 == j) (p :: pairs)
        = List.find? (fun q : Nat × List Char => q.1 == j) pairs :=
      List.find?_cons_of_neg pairs (by simp; omega)
    simp only [specCommentMerge, hstep, ih (j + 1) (by omega)]

theorem specMerge_skip (pairs : List (Nat × List Char)) :
    ∀ (t j : Nat) (ls : List (List Char)), t ≤ ls.length →
      (∀ p ∈ pairs, j + t ≤ p.1) →
      specCommentMerge pairs j ls
        = ls.take t ++ specCommentMerge pairs (j + t) (ls.drop t) := by
  intro t
  induction t with
  | zero => intro j ls _ _; simp
  | succ t ih =>
    intro j ls hlen hmem
    cases ls with
    | nil => simp at hlen
    | cons l ls' =>
      have hfind : pairs.find? (fun p => p.1 == j) = none := by
        apply List.find?_eq_none.mpr
        intro p hp
        have := hmem p hp
        simp
        omega
      simp only [specCommentMerge, hfind, List.take_succ_cons, List.drop_succ_cons,
        List.cons_append]
      have he : j + 1 + t = j + (t + 1) := by omega
      rw [ih (j + 1) ls' (by simpa using hlen)
        (fun p hp => by have := hmem p hp; omega), he]

theorem specMerge_ne_nil (pairs : List (Nat × List Char)) (j : Nat)
    (ls : List (List Char)) (h : ls ≠ []) :
    specCommentMerge pairs j ls ≠ [] := by
  cases ls with
  | nil => exact absurd rfl h
  | cons l ls' =>
    simp only [specCommentMerge]
    cases hf : pairs.find? (fun p => p.1 == j) <;> simp

/-- Effect of one ordered insertion on the subsequence of a given sort key:
the inserted element lands in front of the equal-key elements already
present (they all come from later in the original list), and every other
key's subsequence is untouched. -/
theorem orderedInsert_filter_key (g : GeneratedFix) (k : Nat) :
    ∀ l : List GeneratedFix,
      (List.orderedInsert (fun a b => sortKey b ≤ sortKey a) g l).filter
          (fun x => sortKey x == k)
        = if sortKey g = k
          then g :: l.filter (fun x => sortKey x == k)
          else l.filter (fun x => sortKey x == k) := by
  intro l
  induction l with
  | nil =>
    simp only [List.orderedInsert_nil]
    by_cases hk : sortKey g = k
    · rw [if_pos hk, List.filter_cons_of_pos (by simp [hk])]
    · rw [if_neg hk, List.filter_cons_of_neg (by simp [hk])]
  | cons b l ih =>
    simp only [List.orderedInsert]
    by_cases hr : sortKey b ≤ sortKey g
    · rw [if_pos hr]
      by_cases hk : sortKey g = k
      · rw [if_pos hk, List.filter_cons_of_pos (by simp [hk])]
      · rw [if_neg hk, List.filter_cons_of_neg (by simp [hk])]
    · rw [if_neg hr]
      by_cases hbk : sortKey b = k
      · have hgk : sortKey g ≠ k := by omega
        rw [if_neg hgk, List.filter_cons_of_pos (by simp [hbk]),
          List.filter_cons_of_pos (by simp [hbk]), ih, if_neg hgk]
      · rw [List.filter_cons_of_neg (by simp [hbk]),
          List.filter_cons_of_neg (by simp [hbk]), ih]

/-- Stability of `sortFixes`: for every key value, the subsequence of fixes
carrying that key is preserved in its original order — exactly the
guarantee Python's stable `sorted` gives for tied keys. -/
theorem sortFixes_filter_key (fs : List GeneratedFix) (k : Nat) :
    (sortFixes fs).filter (fun x => sortKey x == k)
      = fs.filter (fun x => sortKey x == k) := by
  induction fs with
  | nil => rfl
  | cons g fs ih =>
    show (List.orderedInsert (fun a b => sortKey b ≤ sortKey a) g
        (sortFixes fs)).filter (fun x => sortKey x == k) = _
    rw [orderedInsert_filter_key g k (sortFixes fs), ih]
    by_cases hk : sortKey g = k
    · rw [if_pos hk, List.filter_cons_of_pos (by simp [hk])]
    · rw [if_neg hk, List.filter_cons_of_neg (by simp [hk])]

theorem orderedInsert_eq_append (g : GeneratedFix) :
    ∀ l : List GeneratedFix, (∀ b ∈ l, sortKey g < sortKey b) →
      List.orderedInsert (fun a b => sortKey b ≤ sortKey a) g l = l ++ [g] := by
  intro l
  induction l with
  | nil => intro _; rfl
  | cons b l ih =>
    intro h
    have hb : sortKey g < sortKey b := h b (List.mem_cons_self b l)
    simp only [List.orderedInsert]
    rw [if_neg (by omega), ih (fun x hx => h x (List.mem_cons_of_mem b hx))]
    rfl

theorem sortFixes_of_strict_incr : ∀ fs : List GeneratedFix,
    List.Pairwise (fun a b => sortKey a < sortKey b) fs →
      sortFixes fs = fs.reverse := by
  intro fs
  induction fs with
  | nil => intro _; rfl
  | cons g fs ih =>
    intro h
    obtain ⟨h1, h2⟩ := List.pairwise_cons.mp h
    show List.orderedInsert (fun a b => sortKey b ≤ sortKey a) g (sortFixes fs)
      = (g :: fs).reverse
    rw [ih h2, orderedInsert_eq_append g fs.reverse
      (fun b hb => h1 b (List.mem_reverse.mp hb)), List.reverse_cons]

theorem applyStep_comment (text : List Char) (g : GeneratedFix) (L : Nat)
    (c : List Char) (hact : g.fix.action = FixAction.comment)
    (hline : g.fix.line = some L) (hc : g.fix.comment = some c)
    (hL : L ≠ 0) (hcne : c ≠ []) :
    applyStep text g
      = if L ≤ (splitNl text).length
        then joinNl (insIdx (L - 1) c (splitNl text)) else text := by
  simp only [applyStep, hact, hline, hc]
  rw [if_neg (by simp only [not_or]; exact ⟨hL, hcne⟩)]

/-- Folding the comment-insertion step over fixes in descending line order
performs the simultaneous insertion described by `specCommentMerge`: the
fixes are given in ascending line order, so the fold processes their
reversal. -/
theorem foldl_comment_fixes (text : List Char) :
    ∀ fs : List GeneratedFix,
      (∀ g ∈ fs, g.fix.action = FixAction.comment
        ∧ g.fix.line = some (sortKey g)
        ∧ 1 ≤ sortKey g ∧ sortKey g ≤ (splitNl text).length
        ∧ g.fix.comment ≠ none ∧ g.fix.comment ≠ some []) →
      List.Pairwise (fun a b => sortKey a < sortKey b) fs →
      fs.reverse.foldl applyStep text
        = joinNl (specCommentMerge
            (fs.map fun b => (sortKey b, b.fix.comment.getD [])) 1 (splitNl text)) := by
  intro fs
  induction fs with
  | nil =>
    intro _ _
    show text = joinNl (specCommentMerge [] 1 (splitNl text))
    rw [specMerge_nil_pairs, joinNl_splitNl]
  | cons g fs ih =>
    intro hall hpair
    obtain ⟨hact, hline, hge1, hle, hcnone, hcnil⟩ := hall g (List.mem_cons_self g fs)
    obtain ⟨hlt, hpair'⟩ := List.pairwise_cons.mp hpair
    obtain ⟨c, hc⟩ : ∃ c, g.fix.comment = some c := by
      cases hcmt : g.fix.comment with
      | none => exact absurd hcmt hcnone
      | some c => exact ⟨c, rfl⟩
    have hcne : c ≠ [] := fun e => hcnil (by rw [hc, e])
    rw [List.reverse_cons, List.foldl_append,
      ih (fun b hb => hall b (List.mem_cons_of_mem g hb)) hpair']
    simp only [List.foldl_cons, List.foldl_nil, List.map_cons, hc, Option.getD_some]
    rw [applyStep_comment _ g (sortKey g) c hact hline hc (by omega) hcne]
    -- facts about the original lines and the merged tail
    have hmem' : ∀ p ∈ fs.map (fun b => (sortKey b, b.fix.comment.getD [])),
        sortKey g + 1 ≤ p.1 := by
      intro p hp
      obtain ⟨b, hb, rfl⟩ := List.mem_map.mp hp
      have := hlt b hb
      omega
    have hM' : specCommentMerge
          (fs.map fun b => (sortKey b, b.fix.comment.getD [])) 1 (splitNl text)
        = (splitNl text).take (sortKey g)
          ++ specCommentMerge (fs.map fun b => (sortKey b, b.fix.comment.getD []))
              (sortKey g + 1) ((splitNl text).drop (sortKey g)) := by
      have h := specMerge_skip (fs.map fun b => (sortKey b, b.fix.comment.getD []))
        (sortKey g) 1 (splitNl text) hle (fun p hp => by have := hmem' p hp; omega)
      rw [show 1 + sortKey g = sortKey g + 1 from by omega] at h
      exact h
    have hlinesne : splitNl text ≠ [] := splitNl_ne_nil text
    have htakelen : ((splitNl text).take (sortKey g)).length = sortKey g := by
      rw [List.length_take]
      omega
    have hM'ne : specCommentMerge
        (fs.map fun b => (sortKey b, b.fix.comment.getD [])) 1 (splitNl text) ≠ [] :=
      specMerge_ne_nil _ 1 (splitNl text) hlinesne
    have hsplit : splitNl (joinNl (specCommentMerge
          (fs.map fun b => (sortKey b, b.fix.comment.getD [])) 1 (splitNl text)))
        = (splitNl text).take (sortKey g)
          ++ ((specCommentMerge (fs.map fun b => (sortKey b, b.fix.comment.getD []))
              (sortKey g + 1) ((splitNl text).drop (sortKey g))).map splitNl).flatten := by
      rw [splitNl_joinNl _ hM'ne, hM', List.map_append, List.flatten_append,
        flatSplit_id_of_no_newline ((splitNl text).take (sortKey g))
          (fun l hl => mem_splitNl_no_newline text l
            (List.take_subset (sortKey g) (splitNl text) hl))]
    have hLlt : sortKey g - 1 < (splitNl text).length := by omega
    have hL1 : sortKey g - 1 + 1 = sortKey g := by omega
    have hdropL : (splitNl text).drop (sortKey g - 1)
        = (splitNl text)[sortKey g - 1] :: (splitNl text).drop (sortKey g) := by
      have h := List.drop_eq_getElem_cons hLlt
      rw [hL1] at h
      exact h
    have htake : (splitNl text).take (sortKey g)
        = (splitNl text).take (sortKey g - 1) ++ [(splitNl text)[sortKey g - 1]] := by
      have h := List.take_add (splitNl text) (sortKey g - 1) 1
      rw [hL1] at h
      rw [h, hdropL]
      simp
    have hdropTake : ((splitNl text).take (sortKey g)).drop (sortKey g - 1)
        = [(splitNl text)[sortKey g - 1]] := by
      rw [htake, List.drop_append_of_le_length (by rw [List.length_take]; omega),
        List.drop_of_length_le (by rw [List.length_take]; omega)]
      rfl
    -- left-hand side: the effect of the single insertion
    have hLHS : insIdx (sortKey g - 1) c ((splitNl text).take (sortKey g)
          ++ ((specCommentMerge (fs.map fun b => (sortKey b, b.fix.comment.getD []))
              (sortKey g + 1) ((splitNl text).drop (sortKey g))).map splitNl).flatten)
        = (splitNl text).take (sortKey g - 1) ++ c :: (splitNl text)[sortKey g - 1]
            :: ((specCommentMerge (fs.map fun b => (sortKey b, b.fix.comment.getD []))
              (sortKey g + 1) ((splitNl text).drop (sortKey g))).map splitNl).flatten := by
      rw [insIdx_eq_take_drop (sortKey g - 1) c _
          (by rw [List.length_append, htakelen]; omega),
        List.take_append_of_le_length (by rw [htakelen]; omega),
        List.drop_append_of_le_length (by rw [htakelen]; omega),
        List.take_take, Nat.min_eq_left (Nat.sub_le (sortKey g) 1), hdropTake]
      simp
    -- right-hand side: unfolding the merge once at line `sortKey g`
    have hfind : List.find? (fun q : Nat × List Char => q.1 == sortKey g)
          ((sortKey g, c) :: fs.map fun b => (sortKey b, b.fix.comment.getD []))
        = some (sortKey g, c) := List.find?_cons_of_pos _ (by simp)
    have hRHS : specCommentMerge
          ((sortKey g, c) :: fs.map fun b => (sortKey b, b.fix.comment.getD []))
          1 (splitNl text)
        = (splitNl text).take (sortKey g - 1) ++ c :: (splitNl text)[sortKey g - 1]
            :: specCommentMerge (fs.map fun b => (sortKey b, b.fix.comment.getD []))
              (sortKey g + 1) ((splitNl text).drop (sortKey g)) := by
      have hmemAll : ∀ p ∈ (sortKey g, c)
            :: fs.map (fun b => (sortKey b, b.fix.comment.getD [])),
          1 + (sortKey g - 1) ≤ p.1 := by
        intro p hp
        rcases List.mem_cons.mp hp with h | h
        · subst h
          show 1 + (sortKey g - 1) ≤ sortKey g
          omega
        · have := hmem' p h
          omega
      rw [specMerge_skip _ (sortKey g - 1) 1 (splitNl text) (by omega) hmemAll,
        show 1 + (sortKey g - 1) = sortKey g from by omega, hdropL]
      simp only [specCommentMerge, hfind]
      rw [specMerge_cons_lt (sortKey g, c) _ ((splitNl text).drop (sortKey g))
        (sortKey g + 1) (by omega)]
    rw [hsplit, if_pos (by rw [List.length_append, htakelen]; omega), hLHS, hRHS]
    have hassoc : ∀ Z : List (List Char),
        (splitNl text).take (sortKey g - 1) ++ c :: (splitNl text)[sortKey g - 1] :: Z
          = ((splitNl text).take (sortKey g - 1)
              ++ [c, (splitNl text)[sortKey g - 1]]) ++ Z := by
      intro Z
      simp
    rw [hassoc, hassoc, joinNl_append_flatSplit _ _ (by simp)]
    simp

/-! ## The claims -/

/-- C9: `apply_fixes` applied to an empty fix list returns the original
text unchanged. -/
theorem c9_empty_fixes_identity (code : List Char) : apply_fixes code [] = code := rfl

/-- C6: for every text containing the literal substring `TODO:`, `run_tests`
reports the third check — "Linting rules" — as failed, and the overall
success flag is false. -/
theorem c6_todo_fails_linting (filePath code : List Char)
    (h : containsSub "TODO:".toList code = true) :
    (run_tests filePath code).tests.get? 2 = some ("Linting rules".toList, false)
      ∧ (run_tests filePath code).success = false := by
  cases hF : containsSub "FIXME:".toList code <;>
    cases hSe : containsSub "SECURITY:".toList code <;>
      cases hEv : containsSub "eval(".toList code <;>
        cases hSt : containsSub "STYLE:".toList code <;>
          (simp only [run_tests, h, hF, hSe, hEv, hSt]; decide)

/-- C6 witness at a concrete input. -/
theorem c6_todo_fails_linting_witness :
    (run_tests "f.ts".toList "// TODO: fix this".toList).tests.get? 2
        = some ("Linting rules".toList, false)
      ∧ (run_tests "f.ts".toList "// TODO: fix this".toList).success = false :=
  c6_todo_fails_linting "f.ts".toList "// TODO: fix this".toList (by decide)

/-- C7: for every reported error of kind `security` whose message contains
"xss" case-insensitively, the synthesized fix is a Replace edit whose
replacement text contains no `innerHTML` assignment token — whether the
higher-priority "injection" rule fires (replacement
`// SECURITY: eval() removed - `) or the "xss" rule fires (replacement
`textContent =`). -/
theorem c7_xss_replacement_no_innerHTML (err : CodeError)
    (hk : err.type = "security".toList)
    (hm : containsSub "xss".toList (lowerStr err.message) = true) :
    (dispatch_fix err).action = FixAction.replace
      ∧ containsSub "innerHTML".toList ((dispatch_fix err).replacement.getD [])
          = false := by
  have hd : dispatch_fix err = generate_security_fix err := by
    simp [dispatch_fix, hk]
  rw [hd]
  unfold generate_security_fix
  split_ifs with h1
  · exact ⟨rfl, by decide⟩
  · exact ⟨rfl, by decide⟩

/-- C7 witness at a concrete input. -/
theorem c7_xss_replacement_no_innerHTML_witness :
    (dispatch_fix { type := "security".toList, line := 2,
                    message := "XSS vulnerability".toList }).action = FixAction.replace
      ∧ containsSub "innerHTML".toList
          ((dispatch_fix { type := "security".toList, line := 2,
                           message := "XSS vulnerability".toList }).replacement.getD [])
          = false :=
  c7_xss_replacement_no_innerHTML _ rfl (by decide)

/-- C3 counterexample: the claim's sort key for a Replace edit is the
originating error's line, but the code sorts by `f.fix.line or 0`, which is
`0` for Replace and Suggest edits (their `line` field is unset).  For the
pair [Replace fix from error line 5, InsertComment fix at line 3] the
claimed descending order would put the Replace fix first; the code puts it
last, so the sorted list is not descending by the claimed key. -/
theorem c3_counterexample :
    (sortFixes [c3fixReplace, c3fixComment]).map claimedSortKey = [3, 5]
      ∧ ¬ List.Pairwise (fun a b => b ≤ a)
            ((sortFixes [c3fixReplace, c3fixComment]).map claimedSortKey) := by
  constructor
  · decide
  · intro hp
    have h35 : (5 : Nat) ≤ 3 := by
      have he : (sortFixes [c3fixReplace, c3fixComment]).map claimedSortKey = [3, 5] := by
        decide
      rw [he] at hp
      exact List.rel_of_pairwise_cons hp (List.mem_singleton_self 5)
    omega

/-- C3 amended: before application, `apply_fixes` sorts the fixes in
descending order by the key `f.fix.line or 0` — the edit descriptor's own
`line` field for InsertComment edits, and `0` for Replace and Suggest edits
(whose `line` is unset) — stably, producing a permutation of the input.
Stability is the third conjunct: for every key value, the subsequence of
fixes with that key is preserved in its original order, so elements with
tied keys (e.g. all Replace/Suggest fixes, tied at 0) keep their relative
order; together with descending sortedness and the permutation property
this uniquely determines the output of Python's stable
`sorted(..., reverse=True)`. -/
theorem c3_sort_key_amended (fs : List GeneratedFix) :
    List.Pairwise (fun a b => sortKey b ≤ sortKey a) (sortFixes fs)
      ∧ List.Perm (sortFixes fs) fs
      ∧ ∀ k : Nat, (sortFixes fs).filter (fun g => sortKey g == k)
          = fs.filter (fun g => sortKey g == k) := by
  refine ⟨?_, List.perm_insertionSort _ fs, fun k => sortFixes_filter_key fs k⟩
  haveI h1 : IsTotal GeneratedFix (fun a b => sortKey b ≤ sortKey a) :=
    ⟨fun a b => Nat.le_total (sortKey b) (sortKey a)⟩
  haveI h2 : IsTrans GeneratedFix (fun a b => sortKey b ≤ sortKey a) :=
    ⟨fun _ _ _ hab hbc => le_trans hbc hab⟩
  exact List.sorted_insertionSort _ fs

/-- C4 counterexample: a performance error whose message contains "loop"
synthesizes a Suggest edit, yet `generate_fixes` still marks the wrapping
`GeneratedFix` as `automated = True` (the code sets the flag
unconditionally), contradicting "automated is true unless the action is
Suggest". -/
theorem c4_counterexample :
    (generate_fixes "x".toList
        [{ type := "performance".toList, line := 1, message := "slow loop here".toList }]
        "p.ts".toList).map (fun g => (g.fix.action, g.automated))
      = [(FixAction.suggest, true)] := by decide

/-- C4 amended: every `GeneratedFix` produced by `generate_fixes` has
confidence in [0,1] (it is always 0.85) and `automated = true` — including
fixes wrapping Suggest edits. -/
theorem c4_confidence_automated (code : List Char) (errors : List CodeError)
    (filePath : List Char) (g : GeneratedFix)
    (hg : g ∈ generate_fixes code errors filePath) :
    0 ≤ g.confidence ∧ g.confidence ≤ 1 ∧ g.automated = true := by
  unfold generate_fixes at hg
  obtain ⟨e, _, rfl⟩ := List.mem_map.mp hg
  exact ⟨by norm_num, by norm_num, rfl⟩

/-- C4 witness at a concrete input. -/
theorem c4_confidence_automated_witness :
    ∃ g ∈ generate_fixes "x".toList
        [{ type := "performance".toList, line := 1, message := "slow loop here".toList }]
        "p.ts".toList,
      0 ≤ g.confidence ∧ g.confidence ≤ 1 ∧ g.automated = true := by
  obtain ⟨g, hg⟩ : ∃ g, generate_fixes "x".toList
      [{ type := "performance".toList, line := 1, message := "slow loop here".toList }]
      "p.ts".toList = [g] := ⟨_, rfl⟩
  refine ⟨g, ?_, c4_confidence_automated "x".toList
      [{ type := "performance".toList, line := 1, message := "slow loop here".toList }]
      "p.ts".toList g ?_⟩ <;>
    (rw [hg]; exact List.mem_singleton_self g)

/-- C5 counterexample: an InsertComment fix whose comment is the empty
string satisfies the claim's conditions (distinct, strictly increasing
lines within the line count) but is skipped by `apply_fixes` — Python's
`if fix.fix.line and fix.fix.comment` treats the empty string as falsy — so
the comment is NOT inserted before its target line, while the claimed
simultaneous insertion would add an (empty) line. -/
theorem c5_counterexample :
    apply_fixes "a\nb".toList [c5emptyCommentFix] = "a\nb".toList
      ∧ joinNl (specCommentMerge
            ([c5emptyCommentFix].map fun b => (sortKey b, b.fix.comment.getD []))
            1 (splitNl "a\nb".toList))
          = '\n' :: "a\nb".toList
      ∧ ("a\nb".toList : List Char) ≠ '\n' :: "a\nb".toList :=
  ⟨by decide, by decide, by decide⟩

/-- C5 amended: for every source text and every list of InsertComment fixes
whose target lines are strictly increasing, at least 1 and within the
original text's line count, and whose comments are NON-EMPTY (an empty
comment is falsy in Python and is skipped), `apply_fixes` inserts every
comment immediately before its originally-specified line of the ORIGINAL
text, none shifted by the other insertions: the result is the simultaneous
merge `specCommentMerge` of the comments into the original lines. -/
theorem c5_insert_comments_amended (text : List Char) (fs : List GeneratedFix)
    (hall : ∀ g ∈ fs, g.fix.action = FixAction.comment
      ∧ g.fix.line = some (sortKey g)
      ∧ 1 ≤ sortKey g ∧ sortKey g ≤ (splitNl text).length
      ∧ g.fix.comment ≠ none ∧ g.fix.comment ≠ some [])
    (hinc : List.Pairwise (fun a b => sortKey a < sortKey b) fs) :
    apply_fixes text fs
      = joinNl (specCommentMerge
          (fs.map fun b => (sortKey b, b.fix.comment.getD [])) 1 (splitNl text)) := by
  show (sortFixes fs).foldl applyStep text = _
  rw [sortFixes_of_strict_incr fs hinc]
  exact foldl_comment_fixes text fs hall hinc

/-- C5 witness: two comments at lines 1 and 3 of a three-line text both
land immediately before their original lines. -/
theorem c5_insert_comments_amended_witness :
    apply_fixes "a\nb\nc".toList
        [{ error_id := 1, type := "style".toList, description := "s1".toList,
           fix := { action := FixAction.comment, line := some 1,
                    comment := some "// one".toList },
           confidence := (85 : ℚ) / 100, automated := true },
         { error_id := 3, type := "style".toList, description := "s3".toList,
           fix := { action := FixAction.comment, line := some 3,
                    comment := some "// three".toList },
           confidence := (85 : ℚ) / 100, automated := true }]
      = joinNl (specCommentMerge
          ([{ error_id := 1, type := "style".toList, description := "s1".toList,
              fix := { action := FixAction.comment, line := some 1,
                       comment := some "// one".toList },
              confidence := (85 : ℚ) / 100, automated := true },
            { error_id := 3, type := "style".toList, description := "s3".toList,
              fix := { action := FixAction.comment, line := some 3,
                       comment := some "// three".toList },
              confidence := (85 : ℚ) / 100, automated := true }].map
            fun b => (sortKey b, b.fix.comment.getD []))
          1 (splitNl "a\nb\nc".toList)) :=
  c5_insert_comments_amended "a\nb\nc".toList _ (by decide) (by decide)

/-- C1 counterexample: on input `"eval(x)"` with the single security error
"potential injection risk", the synthesized replacement
`// SECURITY: eval() removed - ` itself contains the token `eval(`, so the
patched text still contains the substring `eval(`, contrary to the claim. -/
theorem c1_counterexample :
    containsSub "eval(".toList
        (apply_fixes "eval(x)".toList
          (generate_fixes "eval(x)".toList
            [{ type := "security".toList, line := 1,
               message := "potential injection risk".toList }] "app.ts".toList))
      = true := by decide

/-- C1 amended: for input `"eval(x)"` with the single error
{kind: security, line: 1, message: "potential injection risk"}, synthesis
yields the Replace edit for the "injection" rule, `apply_fixes` produces
`// SECURITY: eval() removed - x)` — which still contains `eval(`, inside
the inline marker — the marker contains `SECURITY:`, hence the "Security
scan" check fails, overall success is false, and `pr_url = None`. -/
theorem c1_end_to_end_amended (filePath : List Char) (rand : Nat) :
    ∃ resp : CodeFixResponse,
      code_fix_agent "eval(x)".toList
          [{ type := "security".toList, line := 1,
             message := "potential injection risk".toList }] filePath rand
        = Except.ok resp
      ∧ resp.fixed_code = "// SECURITY: eval() removed - x)".toList
      ∧ containsSub "SECURITY:".toList resp.fixed_code = true
      ∧ containsSub "eval(".toList resp.fixed_code = true
      ∧ resp.test_results.tests.get? 3 = some ("Security scan".toList, false)
      ∧ resp.test_results.success = false
      ∧ resp.pr_url = none :=
  ⟨_, rfl, rfl, rfl, rfl, rfl, rfl, rfl⟩

/-- C2: the route requests and returns a pull-request reference iff the
validation result's success flag is true; on a failing validation the
response still carries the fixes, the patched code and the validation
breakdown, with `pr_url = None`. -/
theorem c2_pr_url_iff_success (code : List Char) (errors : List CodeError)
    (filePath : List Char) (rand : Nat) (resp : CodeFixResponse)
    (h : code_fix_agent code errors filePath rand = Except.ok resp) :
    (resp.pr_url ≠ none ↔ resp.test_results.success = true)
      ∧ resp.fixes = generate_fixes code errors filePath
      ∧ resp.fixed_code = apply_fixes code (generate_fixes code errors filePath)
      ∧ resp.test_results
          = run_tests filePath (apply_fixes code (generate_fixes code errors filePath))
      ∧ (resp.test_results.success = false → resp.pr_url = none) := by
  unfold code_fix_agent at h
  by_cases hc : code = []
  · rw [if_pos hc] at h
    exact Except.noConfusion h
  · rw [if_neg hc] at h
    simp only [] at h
    rw [Except.ok.injEq] at h
    subst h
    refine ⟨?_, rfl, rfl, rfl, ?_⟩
    · by_cases hs : (run_tests filePath
          (apply_fixes code (generate_fixes code errors filePath))).success = true
      · simp [hs]
      · simp [hs]
    · intro hs
      have hs' : (run_tests filePath
          (apply_fixes code (generate_fixes code errors filePath))).success = false := hs
      simp [hs']

/-- C2 witness at a concrete input (clean code, all checks pass, a PR
reference is returned). -/
theorem c2_pr_url_iff_success_witness :
    ∃ resp : CodeFixResponse,
      code_fix_agent "x".toList [] "f.ts".toList 7 = Except.ok resp
        ∧ (resp.pr_url ≠ none ↔ resp.test_results.success = true)
        ∧ (resp.test_results.success = false → resp.pr_url = none) := by
  refine ⟨_, rfl, ?_, ?_⟩
  · exact (c2_pr_url_iff_success "x".toList [] "f.ts".toList 7 _ rfl).1
  · exact (c2_pr_url_iff_success "x".toList [] "f.ts".toList 7 _ rfl).2.2.2.2

/-- C10: Python `re.sub` treats `$` in a replacement template literally
(group references are spelled `\1`, not `$1`), so for the five rules whose
replacement uses `$`-style group references — "optional chaining"
(`$1?.()`), "export" (`$1export $2`), "semicolon" (`$1;`), "undefined"
(`$1?.$2`) and "null" (`$1 === null`) — `apply_fixes` rewrites every text
fragment matched by the rule's pattern to the exact replacement characters,
`$1`/`$2` included, discarding the matched identifiers: the input splits as
`g₀ ++ m₁ ++ g₁ ++ … ++ mₖ ++ gₖ` and the output is the same gaps with
every matched fragment `mᵢ` replaced by the literal template. -/
theorem c10_dollar_replacement_literal (text : List Char) :
    (∃ gaps ms : List (List Char), gaps.length = ms.length + 1
      ∧ glue gaps ms = text
      ∧ apply_fixes text (generate_fixes []
            [{ type := "style".toList, line := 4,
               message := "use optional chaining".toList }] [])
        = glue gaps (List.replicate ms.length "$1?.()".toList))
    ∧ (∃ gaps ms : List (List Char), gaps.length = ms.length + 1
      ∧ glue gaps ms = text
      ∧ apply_fixes text (generate_fixes []
            [{ type := "style".toList, line := 2,
               message := "missing export".toList }] [])
        = glue gaps (List.replicate ms.length "$1export $2".toList))
    ∧ (∃ gaps ms : List (List Char), gaps.length = ms.length + 1
      ∧ glue gaps ms = text
      ∧ apply_fixes text (generate_fixes []
            [{ type := "style".toList, line := 7,
               message := "missing semicolon".toList }] [])
        = glue gaps (List.replicate ms.length "$1;".toList))
    ∧ (∃ gaps ms : List (List Char), gaps.length = ms.length + 1
      ∧ glue gaps ms = text
      ∧ apply_fixes text (generate_fixes []
            [{ type := "bug".toList, line := 3,
               message := "possibly undefined value".toList }] [])
        = glue gaps (List.replicate ms.length "$1?.$2".toList))
    ∧ (∃ gaps ms : List (List Char), gaps.length = ms.length + 1
      ∧ glue gaps ms = text
      ∧ apply_fixes text (generate_fixes []
            [{ type := "bug".toList, line := 9,
               message := "loose null comparison".toList }] [])
        = glue gaps (List.replicate ms.length "$1 === null".toList)) := by
  refine ⟨?_, ?_, ?_, ?_, ?_⟩
  · exact pySub_literal matchOptChain "$1?.()".toList (by decide) text
  · cases hM : matchExportIface text with
    | none =>
      refine ⟨[text], [], rfl, rfl, ?_⟩
      show pySubAnchored matchExportIface "$1export $2".toList text = glue [text] []
      unfold pySubAnchored
      rw [hM]
      rfl
    | some nz =>
      obtain ⟨n, gs⟩ := nz
      refine ⟨[[], text.drop n], [text.take n], rfl, ?_, ?_⟩
      · show [] ++ (text.take n ++ glue [text.drop n] []) = text
        rw [List.nil_append]
        show text.take n ++ text.drop n = text
        exact List.take_append_drop n text
      · show pySubAnchored matchExportIface "$1export $2".toList text
          = [] ++ ("$1export $2".toList ++ glue [text.drop n] [])
        unfold pySubAnchored
        rw [hM]
        show pyExpand "$1export $2".toList gs ++ text.drop n
          = [] ++ ("$1export $2".toList ++ text.drop n)
        rw [pyExpand_no_backslash _ gs (by decide), List.nil_append]
  · exact pySub_literal matchSemicolonEnd "$1;".toList (by decide) text
  · exact pySub_literal matchUndefinedAccess "$1?.$2".toList (by decide) text
  · exact pySub_literal matchNullEq "$1 === null".toList (by decide) text

/-- C8: a Replace fix whose pattern is malformed is skipped (its
`re.error` is caught per fix) and application continues with the remaining
fixes: `apply_fixes` computes the same result as folding only the
non-malformed fixes, and in particular always returns a result text. -/
theorem c8_malformed_pattern_skipped (code : List Char) (fs : List GeneratedFix) :
    apply_fixes code fs
      = ((sortFixes fs).filter fun g => !isMalformedReplace g).foldl applyStep code :=
  foldl_applyStep_filter_malformed (sortFixes fs) code

end Codemap
